import Mathlib

/-!
Shallow embedding of `scrape.py`: a streaming HTML-event extractor for race
records (class `RunlahParser`), the post-processing pipeline in `scrape`
(sort by date, deduplicate by url), and the stdout lines of `main`.

The parser is modelled at the event level: `handle_starttag`, `handle_data`
and `handle_endtag` are translated one-to-one from the Python methods, and a
document is a list of events folded through `step`.  Python strings become
`String` / `List Char`; Python `str.strip` / `str.replace` / substring tests
are modelled by the explicit character-list functions below (ASCII whitespace
set; the inputs of interest are ASCII).  `datetime.strptime` validation is
modelled by the calendar-validity check `validDMY` (proleptic Gregorian, the
calendar `datetime` uses), and the two date regexes by the structured parsers
`matchP1` / `matchP2`, which implement exactly the regex semantics including
the greedy-with-backtracking day token.
-/

/-- Python whitespace characters stripped by `str.strip()` (ASCII subset). -/
def isSpaceChar (c : Char) : Bool :=
  c = ' ' || c = '\t' || c = '\n' || c = '\r' || c = '\x0b' || c = '\x0c'

/-- Python `s.strip()`: drop leading and trailing whitespace. -/
def pyStrip (s : List Char) : List Char :=
  ((s.dropWhile isSpaceChar).reverse.dropWhile isSpaceChar).reverse

/-- Does `s` start with `p`? -/
def startsWithL : List Char → List Char → Bool
  | _, [] => true
  | [], _ :: _ => false
  | c :: cs, p :: ps => c = p && startsWithL cs ps

/-- Python substring test `needle in hay`. -/
def containsSub (hay needle : List Char) : Bool :=
  match hay with
  | [] => needle.isEmpty
  | _ :: hs => startsWithL hay needle || containsSub hs needle

/-- Scanner for `replaceAll`: with no pending skip (0), test for an
occurrence of `needle` at the head and on a hit emit `repl` and skip the rest
of the occurrence; a pending skip of `k+1` drops the next character. -/
def replaceAllAux (needle repl : List Char) : Nat → List Char → List Char
  | _, [] => []
  | 0, c :: hs =>
    if startsWithL (c :: hs) needle && !needle.isEmpty then
      repl ++ replaceAllAux needle repl (needle.length - 1) hs
    else c :: replaceAllAux needle repl 0 hs
  | k + 1, _ :: hs => replaceAllAux needle repl k hs

/-- Python `hay.replace(needle, repl)`: replace all non-overlapping
occurrences, scanning left to right (`needle` is non-empty at the call site). -/
def replaceAll (needle repl hay : List Char) : List Char :=
  replaceAllAux needle repl 0 hay

/-- Numeric value of a digit string. -/
def digitsToNat (s : List Char) : Nat :=
  s.foldl (fun n c => n * 10 + (c.toNat - 48)) 0

/-- The month-name alternation of the two date regexes, with month numbers. -/
def monthNames : List (String × Nat) :=
  [("January", 1), ("February", 2), ("March", 3), ("April", 4), ("May", 5),
   ("June", 6), ("July", 7), ("August", 8), ("September", 9), ("October", 10),
   ("November", 11), ("December", 12)]

/-- Match a month name at the head of `s`; return its number and the rest. -/
def matchMonth (s : List Char) : Option (Nat × List Char) :=
  (monthNames.filterMap fun p =>
    if startsWithL s p.1.data then some (p.2, s.drop p.1.data.length) else none).head?

/-- Regex `^((?:January|...|December)\s+\d{1,2},\s+\d{4})$` of
`handle_data`, returning the (month, day, year) components.  The greedy
`\d{1,2}` followed by a literal comma succeeds exactly when the maximal digit
run has length 1 or 2 and is followed by a comma. -/
def matchP1 (s : List Char) : Option (Nat × Nat × Nat) :=
  match matchMonth s with
  | none => none
  | some (m, r1) =>
    if (r1.takeWhile isSpaceChar).isEmpty then none else
    let r2 := r1.dropWhile isSpaceChar
    let ds := r2.takeWhile Char.isDigit
    if ds.length = 0 || 2 < ds.length then none else
    match r2.drop ds.length with
    | ',' :: r4 =>
      if (r4.takeWhile isSpaceChar).isEmpty then none else
      let r5 := r4.dropWhile isSpaceChar
      let ys := r5.takeWhile Char.isDigit
      if ys.length = 4 && (r5.drop 4).isEmpty then
        some (m, digitsToNat ds, digitsToNat ys)
      else none
    | _ => none

/-- Regex `^(\d{1,2}(?:-\d{1,2})?\s+(?:January|...|December)\s+\d{4})$` of
`handle_data`, returning (first day, month, year): the code splits the match
on whitespace and keeps only the digits of `parts[0]` before a dash. -/
def matchP2 (s : List Char) : Option (Nat × Nat × Nat) :=
  let ds := s.takeWhile Char.isDigit
  if ds.length = 0 || 2 < ds.length then none else
  let r1 := s.drop ds.length
  let r2 : Option (List Char) :=
    match r1 with
    | '-' :: r =>
      let ds2 := r.takeWhile Char.isDigit
      if ds2.length = 0 || 2 < ds2.length then none else some (r.drop ds2.length)
    | _ => some r1
  match r2 with
  | none => none
  | some r2 =>
    if (r2.takeWhile isSpaceChar).isEmpty then none else
    let r3 := r2.dropWhile isSpaceChar
    match matchMonth r3 with
    | none => none
    | some (m, r4) =>
      if (r4.takeWhile isSpaceChar).isEmpty then none else
      let r5 := r4.dropWhile isSpaceChar
      let ys := r5.takeWhile Char.isDigit
      if ys.length = 4 && (r5.drop 4).isEmpty then
        some (digitsToNat ds, m, digitsToNat ys)
      else none

/-- Proleptic Gregorian leap year, as used by Python `datetime`. -/
def isLeap (y : Nat) : Bool := y % 4 = 0 && (y % 100 ≠ 0 || y % 400 = 0)

/-- Days in a month of a given year. -/
def daysInMonth (y m : Nat) : Nat :=
  if m = 2 then (if isLeap y then 29 else 28)
  else if m = 4 || m = 6 || m = 9 || m = 11 then 30
  else 31

/-- Success condition of `datetime.strptime` on the day/month/year extracted
by the regexes: the `%d` directive only accepts day tokens with value 1..31,
`datetime` requires year ≥ 1 (and ≤ 9999) and a calendar-valid day. -/
def validDMY (d m y : Nat) : Bool :=
  1 ≤ y && y ≤ 9999 && 1 ≤ d && d ≤ 31 && d ≤ daysInMonth y m

/-- Zero-pad to two digits, as `strftime` `%m` / `%d` do. -/
def pad2 (n : Nat) : String := if n < 10 then "0" ++ toString n else toString n

/-- Zero-pad to four digits, as `strftime` `%Y` formats the years here. -/
def pad4 (n : Nat) : String :=
  if n < 10 then "000" ++ toString n
  else if n < 100 then "00" ++ toString n
  else if n < 1000 then "0" ++ toString n
  else toString n

/-- `dt.strftime("%Y-%m-%d")`. -/
def isoDate (y m d : Nat) : String := pad4 y ++ "-" ++ pad2 m ++ "-" ++ pad2 d

/-- The race-record dictionary built by `RunlahParser`. -/
structure Race where
  name : String
  url : String
  image : String
  date : String
  dateDisplay : String
  location : String
deriving Repr, DecidableEq

/-- Mutable parser state: the accumulated list and the open candidate. -/
structure ParserState where
  races : List Race
  current_race : Option Race
deriving Repr, DecidableEq

/-- HTML events fed to the parser, in document order. -/
inductive Event where
  | startTag (tag : String) (attrs : List (String × String))
  | text (data : String)
  | endTag (tag : String)
deriving Repr, DecidableEq

def BASE : String := "https://www.runlah.com"

/-- Python `dict(attrs).get(key, "")`: the last binding of a key wins. -/
def dictGet (attrs : List (String × String)) (key : String) : String :=
  attrs.foldl (fun acc kv => if kv.1 = key then kv.2 else acc) ""

/-- The navigation paths excluded in `handle_starttag`. -/
def navPaths : List String :=
  ["/en", "/en/calendar", "/en/results", "/en/promote", "/en/about",
   "/en/terms", "/en/privacy", "/en/user/registers", "/en/user/settings"]

/-- Character class `[A-Za-z0-9_]`. -/
def isWordChar (c : Char) : Bool := c.isAlpha || c.isDigit || c = '_'

/-- Regex `^/en/[A-Za-z0-9_]+$` applied to an href. -/
def matchEventHref (href : String) : Bool :=
  startsWithL href.data ("/en/".data) &&
    (let tok := href.data.drop 4
     decide (0 < tok.length) && tok.all isWordChar)

/-- The anchor branch of `handle_starttag`: it opens a candidate only when no
candidate is open (the Python code guards the creation with
`self.current_race is None`, so with a candidate open the tag is a no-op). -/
def anchorOpen (cur : Option Race) (tag href : String) : Option Race :=
  match cur with
  | some r => some r
  | none =>
    if tag = "a" ∧ href ≠ "" ∧ matchEventHref href = true ∧
        containsSub href.data ("/teams/".data) = false ∧ href ∉ navPaths then
      some { name := "", url := BASE ++ href, image := "",
             date := "", dateDisplay := "", location := "" }
    else none

/-- The image branch of `handle_starttag`: fill `image` at most once from a
`/images/event/` src, resolving a relative src against `BASE`. -/
def imgFill (cur : Option Race) (tag src : String) : Option Race :=
  match cur with
  | none => none
  | some r =>
    if tag = "img" ∧ r.image = "" ∧ src ≠ "" ∧
        containsSub src.data ("/images/event/".data) = true then
      some { r with image := if startsWithL src.data ['/'] then BASE ++ src else src }
    else some r

/-- Effect of `handle_starttag` on `current_race` (the only state it touches):
the anchor branch, then the image branch, in source order. -/
def startTagRace (cur : Option Race) (tag : String)
    (attrs : List (String × String)) : Option Race :=
  imgFill (anchorOpen cur tag (dictGet attrs "href")) tag (dictGet attrs "src")

def handle_starttag (st : ParserState) (tag : String)
    (attrs : List (String × String)) : ParserState :=
  { st with current_race := startTagRace st.current_race tag attrs }

/-- The name heuristic of `handle_data`: first substantial non-boilerplate text. -/
def applyName (text : List Char) (r : Race) : Race :=
  if r.name = "" ∧ 3 < text.length ∧
      String.mk text ∉ (["Detail", "Register now!", "View all other events..."] : List String) then
    { r with name := String.mk text }
  else r

/-- The two date-regex attempts of `handle_data`, run under the guard
`current_race["date"] == ""`.  Given the current `dateDisplay` value, returns
the new (dateDisplay, date) pair: each matching regex overwrites
`dateDisplay` with the full matched text, and sets `date` only when
`strptime` succeeds (`validDMY`); the second regex is tried only while `date`
is still empty. -/
def dateUpdate (text : List Char) (dd0 : String) : String × String :=
  let p1 : String × String :=
    match matchP1 text with
    | some (m, d, y) => (String.mk text, if validDMY d m y then isoDate y m d else "")
    | none => (dd0, "")
  match matchP2 text with
  | some (d, m, y) =>
    if p1.2 = "" then
      (String.mk text, if validDMY d m y then isoDate y m d else "")
    else p1
  | none => p1

def applyDate (text : List Char) (r : Race) : Race :=
  if r.date = "" then
    { r with dateDisplay := (dateUpdate text r.dateDisplay).1,
             date := (dateUpdate text r.dateDisplay).2 }
  else r

/-- The location heuristic of `handle_data`:
`text.replace(" province", "").strip()` guarded by the two substring tests. -/
def applyLocation (text : List Char) (r : Race) : Race :=
  if r.location = "" ∧ containsSub text ("Chiang Mai".data) = true ∧
      containsSub (text.map Char.toLower) ("province".data) = true then
    { r with location := String.mk (pyStrip (replaceAll (" province".data) [] text)) }
  else r

/-- Effect of `handle_data` on `current_race`: strip the text, return early if
it is empty or no candidate is open, otherwise run the three field heuristics
in source order. -/
def dataRace (cur : Option Race) (data : String) : Option Race :=
  match cur with
  | none => none
  | some r =>
    if (pyStrip data.data).isEmpty then some r
    else
      some (applyLocation (pyStrip data.data)
             (applyDate (pyStrip data.data) (applyName (pyStrip data.data) r)))

def handle_data (st : ParserState) (data : String) : ParserState :=
  { st with current_race := dataRace st.current_race data }

/-- Finalization step of `handle_endtag`: append the candidate unless its url
is already present, defaulting an empty location to "Chiang Mai". -/
def finalizeRace (races : List Race) (r : Race) : List Race :=
  if r.url ∉ races.map Race.url then
    races ++ [if r.location = "" then { r with location := "Chiang Mai" } else r]
  else races

/-- `handle_endtag` (the tag argument is ignored by the source): a candidate
with both `name` and `date` non-empty is finalized and the state returns to
Idle; otherwise the method does nothing. -/
def handle_endtag (st : ParserState) (tag : String) : ParserState :=
  match st.current_race with
  | none => st
  | some r =>
    if r.name ≠ "" ∧ r.date ≠ "" then
      { races := finalizeRace st.races r, current_race := none }
    else st

/-- Dispatch one document event to its handler. -/
def step (st : ParserState) : Event → ParserState
  | Event.startTag t a => handle_starttag st t a
  | Event.text d => handle_data st d
  | Event.endTag t => handle_endtag st t

def initState : ParserState := { races := [], current_race := none }

/-- `parser.feed(html)`: process the document's events in order. -/
def runParser (evs : List Event) : ParserState := evs.foldl step initState

/-- The sort key relation of `sorted(parser.races, key=lambda r: r["date"])`:
lexicographic string comparison of the `date` field. -/
abbrev raceLe (a b : Race) : Prop := a.date ≤ b.date

instance : DecidableRel raceLe := fun a b => inferInstanceAs (Decidable (a.date ≤ b.date))
instance : IsTotal Race raceLe := ⟨fun a b => le_total a.date b.date⟩
instance : IsTrans Race raceLe := ⟨fun _ _ _ h₁ h₂ => le_trans h₁ h₂⟩

/-- Python's `sorted` is a stable sort by the `date` key; modelled by the
(stable) insertion sort. -/
def sortRaces (l : List Race) : List Race := List.insertionSort raceLe l

/-- The defensive deduplication loop of `scrape`, with the `seen` set as a
list of urls. -/
def dedupByUrl : List String → List Race → List Race
  | _, [] => []
  | seen, r :: rs =>
    if r.url ∈ seen then dedupByUrl seen rs
    else r :: dedupByUrl (r.url :: seen) rs

/-- Post-processing of `scrape` applied to a parsed document: sort by date,
then deduplicate by url. -/
def scrapeList (evs : List Event) : List Race :=
  dedupByUrl [] (sortRaces (runParser evs).races)

/-- The separator literal in `main`'s per-record print: the source file holds
the bytes C3 A2 E2 82 AC E2 80 9D, i.e. the three characters U+00E2 U+20AC
U+201D ("a-circumflex, euro sign, right double quote"), not an em-dash. -/
def sepCode : String := "â€”"

/-- An em-dash, U+2014, the separator the spec describes. -/
def sepSpec : String := "—"

/-- The lines `main` writes to standard output, in order: the summary line,
then one line per record. -/
def mainOutput (races : List Race) : List String :=
  ("Found " ++ toString races.length ++ " races in Chiang Mai")
    :: races.map (fun r => "  " ++ r.date ++ " " ++ sepCode ++ " " ++ r.name)

/-- Modelled from the spec: the spec's claimed location value, "the text with
only its trailing \x7b space\x7dprovince suffix stripped (the rest of the
text unchanged)".  Used solely to compare against the source's behavior. -/
def stripTrailingProvince (t : List Char) : List Char :=
  if startsWithL t.reverse (" province".data.reverse) then
    t.take (t.length - (" province".data).length)
  else t

/-! ### Field-preservation lemmas for the `handle_data` heuristics -/

theorem applyName_image (t : List Char) (r : Race) : (applyName t r).image = r.image := by
  unfold applyName; split <;> rfl

theorem applyName_date (t : List Char) (r : Race) : (applyName t r).date = r.date := by
  unfold applyName; split <;> rfl

theorem applyName_dateDisplay (t : List Char) (r : Race) :
    (applyName t r).dateDisplay = r.dateDisplay := by
  unfold applyName; split <;> rfl

theorem applyName_location (t : List Char) (r : Race) :
    (applyName t r).location = r.location := by
  unfold applyName; split <;> rfl

theorem applyName_name_of_ne (t : List Char) (r : Race) (h : r.name ≠ "") :
    (applyName t r).name = r.name := by
  unfold applyName
  rw [if_neg]
  intro hh
  exact h hh.1

theorem applyDate_name (t : List Char) (r : Race) : (applyDate t r).name = r.name := by
  unfold applyDate; split <;> rfl

theorem applyDate_image (t : List Char) (r : Race) : (applyDate t r).image = r.image := by
  unfold applyDate; split <;> rfl

theorem applyDate_location (t : List Char) (r : Race) :
    (applyDate t r).location = r.location := by
  unfold applyDate; split <;> rfl

theorem applyDate_of_filled (t : List Char) (r : Race) (h : r.date ≠ "") :
    applyDate t r = r := by
  unfold applyDate
  exact if_neg h

theorem applyLocation_name (t : List Char) (r : Race) :
    (applyLocation t r).name = r.name := by
  unfold applyLocation; split <;> rfl

theorem applyLocation_image (t : List Char) (r : Race) :
    (applyLocation t r).image = r.image := by
  unfold applyLocation; split <;> rfl

theorem applyLocation_date (t : List Char) (r : Race) :
    (applyLocation t r).date = r.date := by
  unfold applyLocation; split <;> rfl

theorem applyLocation_dateDisplay (t : List Char) (r : Race) :
    (applyLocation t r).dateDisplay = r.dateDisplay := by
  unfold applyLocation; split <;> rfl

theorem applyLocation_of_filled (t : List Char) (r : Race) (h : r.location ≠ "") :
    applyLocation t r = r := by
  unfold applyLocation
  rw [if_neg]
  intro hh
  exact h hh.1

/-! ### Concrete evaluations of the date pipeline -/

theorem dateUpdate_march5 (dd : String) :
    dateUpdate ("March 5, 2025".data) dd = ("March 5, 2025", "2025-03-05") := rfl

theorem dateUpdate_range (dd : String) :
    dateUpdate ("12-13 April 2025".data) dd = ("12-13 April 2025", "2025-04-12") := rfl

/-! ### Claim C1 -/

def evOpen : Event := Event.startTag "a" [("href", "/en/race1")]

def raceEmptyName : Race :=
  { name := "", url := "https://www.runlah.com/en/race1", image := "",
    date := "", dateDisplay := "", location := "" }

/-- C1 counterexample: after a qualifying anchor opens a candidate, a close-tag
event processed while the candidate's name and date are empty leaves the
candidate open and unchanged — the extractor does not return to Idle, so the
claim is false on the code. -/
theorem scrape_C1_counterexample :
    (runParser [evOpen, Event.endTag "a"]).current_race = some raceEmptyName := by
  rfl

/-- C1 (amended): a close-tag event processed while a candidate is open with an
empty name or date leaves the parser state entirely unchanged — the incomplete
candidate survives the close of its enclosing tag; it is not discarded and the
state does not reset to Idle. -/
theorem scrape_C1_incomplete_survives (st : ParserState) (tag : String) (r : Race)
    (hc : st.current_race = some r) (h : r.name = "" ∨ r.date = "") :
    handle_endtag st tag = st := by
  unfold handle_endtag
  rw [hc]
  show (if r.name ≠ "" ∧ r.date ≠ "" then
          ({ races := finalizeRace st.races r, current_race := none } : ParserState)
        else st) = st
  rw [if_neg]
  intro hcon
  rcases h with h | h
  · exact hcon.1 h
  · exact hcon.2 h

/-- C1 witness: the amended statement at a concrete state. -/
theorem scrape_C1_witness :
    handle_endtag { races := [], current_race := some raceEmptyName } "div"
      = { races := [], current_race := some raceEmptyName } :=
  scrape_C1_incomplete_survives _ "div" raceEmptyName rfl (Or.inl rfl)

/-! ### Claim C5 -/

/-- C5: a text event "March 5, 2025" processed while a candidate is open with
an empty date sets `date` to "2025-03-05" and `dateDisplay` to the original
text "March 5, 2025". -/
theorem scrape_C5_march5_roundtrip (st : ParserState) (r : Race)
    (hc : st.current_race = some r) (hd : r.date = "") :
    (handle_data st "March 5, 2025").current_race.map Race.date = some "2025-03-05" ∧
    (handle_data st "March 5, 2025").current_race.map Race.dateDisplay = some "March 5, 2025" := by
  have h1 : (handle_data st "March 5, 2025").current_race
      = some (applyLocation ("March 5, 2025".data)
              (applyDate ("March 5, 2025".data) (applyName ("March 5, 2025".data) r))) := by
    have h0 : (handle_data st "March 5, 2025").current_race
        = dataRace st.current_race "March 5, 2025" := rfl
    rw [h0, hc]
    rfl
  have hnd : (applyName ("March 5, 2025".data) r).date = "" := by
    rw [applyName_date]; exact hd
  have h2 : applyDate ("March 5, 2025".data) (applyName ("March 5, 2025".data) r)
      = { applyName ("March 5, 2025".data) r with
          dateDisplay := "March 5, 2025", date := "2025-03-05" } := by
    unfold applyDate
    rw [if_pos hnd, dateUpdate_march5]
  constructor
  · rw [h1, Option.map_some', applyLocation_date, h2]
  · rw [h1, Option.map_some', applyLocation_dateDisplay, h2]

/-- C5 witness: the theorem at a concrete open candidate. -/
theorem scrape_C5_witness :
    (handle_data { races := [], current_race := some raceEmptyName }
        "March 5, 2025").current_race.map Race.date = some "2025-03-05" ∧
    (handle_data { races := [], current_race := some raceEmptyName }
        "March 5, 2025").current_race.map Race.dateDisplay = some "March 5, 2025" :=
  scrape_C5_march5_roundtrip _ raceEmptyName rfl rfl

/-! ### Claim C6 -/

/-- C6: a text event "12-13 April 2025" processed while a candidate is open
with an empty date sets `date` to "2025-04-12" (only the first day of the
range) and `dateDisplay` to the full original range text. -/
theorem scrape_C6_range_first_day (st : ParserState) (r : Race)
    (hc : st.current_race = some r) (hd : r.date = "") :
    (handle_data st "12-13 April 2025").current_race.map Race.date = some "2025-04-12" ∧
    (handle_data st "12-13 April 2025").current_race.map Race.dateDisplay = some "12-13 April 2025" := by
  have h1 : (handle_data st "12-13 April 2025").current_race
      = some (applyLocation ("12-13 April 2025".data)
              (applyDate ("12-13 April 2025".data) (applyName ("12-13 April 2025".data) r))) := by
    have h0 : (handle_data st "12-13 April 2025").current_race
        = dataRace st.current_race "12-13 April 2025" := rfl
    rw [h0, hc]
    rfl
  have hnd : (applyName ("12-13 April 2025".data) r).date = "" := by
    rw [applyName_date]; exact hd
  have h2 : applyDate ("12-13 April 2025".data) (applyName ("12-13 April 2025".data) r)
      = { applyName ("12-13 April 2025".data) r with
          dateDisplay := "12-13 April 2025", date := "2025-04-12" } := by
    unfold applyDate
    rw [if_pos hnd, dateUpdate_range]
  constructor
  · rw [h1, Option.map_some', applyLocation_date, h2]
  · rw [h1, Option.map_some', applyLocation_dateDisplay, h2]

/-- C6 witness: the theorem at a concrete open candidate. -/
theorem scrape_C6_witness :
    (handle_data { races := [], current_race := some raceEmptyName }
        "12-13 April 2025").current_race.map Race.date = some "2025-04-12" ∧
    (handle_data { races := [], current_race := some raceEmptyName }
        "12-13 April 2025").current_race.map Race.dateDisplay = some "12-13 April 2025" :=
  scrape_C6_range_first_day _ raceEmptyName rfl rfl

/-! ### Claim C9 -/

/-- C9: the per-record stdout line of `main`.  The source's separator literal
is the mojibake three-character sequence `sepCode` (bytes C3 A2 E2 82 AC E2
80 9D in the file), not the em-dash `sepSpec` the spec describes: the summary
line and the line structure match the claim, but the separator character does
not. -/
theorem scrape_C9_mojibake_separator :
    mainOutput [{ name := "Doi Suthep Trail Run", url := "https://www.runlah.com/en/race123",
                  image := "", date := "2026-01-10", dateDisplay := "January 10, 2026",
                  location := "Chiang Mai" }]
      = ["Found 1 races in Chiang Mai",
         "  2026-01-10 " ++ sepCode ++ " Doi Suthep Trail Run"] ∧
    sepCode ≠ sepSpec := by
  constructor
  · rfl
  · decide

/-! ### Deduplication lemmas -/

theorem dedup_mem_not_seen :
    ∀ (l : List Race) (seen : List String) (r : Race),
      r ∈ dedupByUrl seen l → r.url ∉ seen := by
  intro l
  induction l with
  | nil => intro seen r h; simp [dedupByUrl] at h
  | cons a l ih =>
    intro seen r h
    by_cases hmem : a.url ∈ seen
    · simp only [dedupByUrl, if_pos hmem] at h
      exact ih seen r h
    · simp only [dedupByUrl, if_neg hmem] at h
      rcases List.mem_cons.1 h with rfl | h
      · exact hmem
      · have hni := ih (a.url :: seen) r h
        intro hin
        exact hni (List.mem_cons_of_mem _ hin)

theorem dedup_pairwise :
    ∀ (l : List Race) (seen : List String),
      (dedupByUrl seen l).Pairwise (fun a b => a.url ≠ b.url) := by
  intro l
  induction l with
  | nil => intro seen; simp [dedupByUrl]
  | cons a l ih =>
    intro seen
    by_cases hmem : a.url ∈ seen
    · simp only [dedupByUrl, if_pos hmem]
      exact ih seen
    · simp only [dedupByUrl, if_neg hmem]
      refine List.Pairwise.cons ?_ (ih (a.url :: seen))
      intro b hb heq
      have hni := dedup_mem_not_seen l (a.url :: seen) b hb
      exact hni (by rw [← heq]; exact List.mem_cons_self _ _)

theorem dedup_sublist :
    ∀ (l : List Race) (seen : List String), (dedupByUrl seen l).Sublist l := by
  intro l
  induction l with
  | nil => intro seen; simp [dedupByUrl]
  | cons a l ih =>
    intro seen
    by_cases hmem : a.url ∈ seen
    · simp only [dedupByUrl, if_pos hmem]
      exact (ih seen).cons a
    · simp only [dedupByUrl, if_neg hmem]
      exact (ih (a.url :: seen)).cons₂ a

/-! ### Claim C2 -/

/-- C2: for every input document, the list returned by `scrape` contains no
two records with the same url: the defensive deduplication pass guarantees the
output urls are pairwise distinct under any input. -/
theorem scrape_C2_no_duplicate_urls (evs : List Event) :
    (scrapeList evs).Pairwise (fun a b => a.url ≠ b.url) :=
  dedup_pairwise _ []

/-! ### Claim C3 -/

/-- C3: for every input document, the list returned by `scrape` is sorted
non-decreasing under lexicographic string comparison of the `date` field
(sorting, then the order-preserving deduplication pass). -/
theorem scrape_C3_sorted_by_date (evs : List Event) :
    List.Sorted raceLe (scrapeList evs) := by
  have hs : List.Sorted raceLe (sortRaces (runParser evs).races) :=
    List.sorted_insertionSort raceLe _
  exact List.Pairwise.sublist (dedup_sublist _ []) hs

/-! ### Parser-state invariants -/

theorem foldl_inv {P : ParserState → Prop}
    (hstep : ∀ st e, P st → P (step st e)) :
    ∀ (evs : List Event) (st : ParserState), P st → P (evs.foldl step st)
  | [], _, h => h
  | e :: evs, st, h => foldl_inv hstep evs (step st e) (hstep st e h)

theorem finalize_mem (races : List Race) (r x : Race)
    (hx : x ∈ finalizeRace races r) :
    x ∈ races ∨ x = r ∨ x = { r with location := "Chiang Mai" } := by
  unfold finalizeRace at hx
  split at hx
  · rcases List.mem_append.1 hx with h | h
    · exact Or.inl h
    · rw [List.mem_singleton] at h
      by_cases hl : r.location = ""
      · rw [if_pos hl] at h
        exact Or.inr (Or.inr h)
      · rw [if_neg hl] at h
        exact Or.inr (Or.inl h)
  · exact Or.inl hx

theorem inv_nonempty_step (st : ParserState) (e : Event)
    (h : ∀ r ∈ st.races, r.name ≠ "" ∧ r.date ≠ "") :
    ∀ r ∈ (step st e).races, r.name ≠ "" ∧ r.date ≠ "" := by
  cases e with
  | startTag t a => exact h
  | text d => exact h
  | endTag t =>
    show ∀ r ∈ (handle_endtag st t).races, r.name ≠ "" ∧ r.date ≠ ""
    unfold handle_endtag
    cases hc : st.current_race with
    | none => exact h
    | some r0 =>
      show ∀ r ∈ (if r0.name ≠ "" ∧ r0.date ≠ "" then
              ({ races := finalizeRace st.races r0, current_race := none } : ParserState)
            else st).races, r.name ≠ "" ∧ r.date ≠ ""
      by_cases hnd : r0.name ≠ "" ∧ r0.date ≠ ""
      · rw [if_pos hnd]
        intro x hx
        rcases finalize_mem st.races r0 x hx with hx | hx | hx
        · exact h x hx
        · subst hx; exact hnd
        · subst hx; exact ⟨hnd.1, hnd.2⟩
      · rw [if_neg hnd]
        exact h

/-! ### Claim C4 -/

/-- C4: every record in the extractor's accumulated output list has a
non-empty name and a non-empty date; in particular a candidate with an empty
date is never finalized into the output. -/
theorem scrape_C4_finalized_nonempty (evs : List Event) (r : Race)
    (h : r ∈ (runParser evs).races) : r.name ≠ "" ∧ r.date ≠ "" := by
  have hinv := foldl_inv (P := fun st => ∀ x ∈ st.races, x.name ≠ "" ∧ x.date ≠ "")
    inv_nonempty_step evs initState (by intro x hx; simp [initState] at hx)
  exact hinv r h

def evsDemo : List Event :=
  [Event.startTag "a" [("href", "/en/race123")],
   Event.text "Doi Suthep Trail Run",
   Event.text "January 10, 2026",
   Event.endTag "a"]

def raceDemo : Race :=
  { name := "Doi Suthep Trail Run", url := "https://www.runlah.com/en/race123",
    image := "", date := "2026-01-10", dateDisplay := "January 10, 2026",
    location := "Chiang Mai" }

/-- C4 witness: the theorem at the record produced by a concrete document. -/
theorem scrape_C4_witness : raceDemo.name ≠ "" ∧ raceDemo.date ≠ "" :=
  scrape_C4_finalized_nonempty evsDemo raceDemo (by decide)

/-! ### Claim C7 -/

theorem imgFill_some (r : Race) (t s : String) (r' : Race)
    (h : imgFill (some r) t s = some r') :
    r'.name = r.name ∧ r'.date = r.date ∧ r'.location = r.location ∧
    (r.image ≠ "" → r'.image = r.image) := by
  have h2 : (if t = "img" ∧ r.image = "" ∧ s ≠ "" ∧
      containsSub s.data ("/images/event/".data) = true then
        some { r with image := if startsWithL s.data ['/'] then BASE ++ s else s }
      else some r) = some r' := h
  split at h2
  · rename_i hG
    injection h2 with h2
    subst h2
    exact ⟨rfl, rfl, rfl, fun hi => absurd hG.2.1 hi⟩
  · injection h2 with h2
    subst h2
    exact ⟨rfl, rfl, rfl, fun _ => rfl⟩

/-- C7 counterexample: the claim is false for the `dateDisplay` field.  With a
candidate open, the text "February 30, 2025" matches the first date regex, so
`dateDisplay` is set to it, while `strptime` fails (February has 28 days in
2025) and `date` stays empty; the later text "March 5, 2025" is then processed
with `date` still empty and overwrites the non-empty `dateDisplay`. -/
theorem scrape_C7_counterexample :
    (runParser [evOpen, Event.text "February 30, 2025"]).current_race.map Race.dateDisplay
        = some "February 30, 2025" ∧
    (runParser [evOpen, Event.text "February 30, 2025",
        Event.text "March 5, 2025"]).current_race.map Race.dateDisplay
        = some "March 5, 2025" ∧
    ("February 30, 2025" : String) ≠ "" ∧
    ("March 5, 2025" : String) ≠ "February 30, 2025" := by
  refine ⟨rfl, rfl, by decide, by decide⟩

/-- C7 (amended): for the fields image, name, date and location the claim
holds — once such a field is non-empty, no later event processed while the
candidate remains open changes it.  `dateDisplay` is excluded: it is guarded
by `date` (not by itself) being empty, so it can be overwritten as long as
`date` is still empty. -/
theorem scrape_C7_fields_fill_once (st : ParserState) (e : Event) (r r' : Race)
    (hc : st.current_race = some r) (hc' : (step st e).current_race = some r') :
    (r.image ≠ "" → r'.image = r.image) ∧ (r.name ≠ "" → r'.name = r.name) ∧
    (r.date ≠ "" → r'.date = r.date) ∧ (r.location ≠ "" → r'.location = r.location) := by
  cases e with
  | startTag t a =>
    have h : imgFill (anchorOpen st.current_race t (dictGet a "href")) t (dictGet a "src")
        = some r' := hc'
    rw [hc] at h
    have h2 : imgFill (some r) t (dictGet a "src") = some r' := h
    rcases imgFill_some r t (dictGet a "src") r' h2 with ⟨hn, hd, hl, hi⟩
    exact ⟨hi, fun _ => hn, fun _ => hd, fun _ => hl⟩
  | text d =>
    have h : dataRace st.current_race d = some r' := hc'
    rw [hc] at h
    have h2 : (if (pyStrip d.data).isEmpty = true then some r
        else some (applyLocation (pyStrip d.data) (applyDate (pyStrip d.data)
          (applyName (pyStrip d.data) r)))) = some r' := h
    split at h2
    · injection h2 with h2
      subst h2
      exact ⟨fun _ => rfl, fun _ => rfl, fun _ => rfl, fun _ => rfl⟩
    · injection h2 with h2
      subst h2
      refine ⟨?_, ?_, ?_, ?_⟩
      · intro _
        rw [applyLocation_image, applyDate_image, applyName_image]
      · intro hn
        rw [applyLocation_name, applyDate_name, applyName_name_of_ne _ _ hn]
      · intro hd2
        rw [applyLocation_date, applyDate_of_filled]
        · exact applyName_date _ _
        · rw [applyName_date]; exact hd2
      · intro hl2
        rw [applyLocation_of_filled]
        · rw [applyDate_location, applyName_location]
        · rw [applyDate_location, applyName_location]; exact hl2
  | endTag t =>
    have h2 : (handle_endtag st t).current_race = some r' := hc'
    unfold handle_endtag at h2
    rw [hc] at h2
    have h3 : (if r.name ≠ "" ∧ r.date ≠ "" then
            ({ races := finalizeRace st.races r, current_race := none } : ParserState)
          else st).current_race = some r' := h2
    split at h3
    · simp at h3
    · rw [hc] at h3
      injection h3 with h3
      subst h3
      exact ⟨fun _ => rfl, fun _ => rfl, fun _ => rfl, fun _ => rfl⟩

def raceFull : Race :=
  { name := "N", url := "https://www.runlah.com/en/race9", image := "I",
    date := "2025-01-01", dateDisplay := "D", location := "L" }

/-- C7 witness: the amended theorem at a concrete filled candidate and a
concrete text event. -/
theorem scrape_C7_witness :
    (raceFull.image ≠ "" → raceFull.image = raceFull.image) ∧
    (raceFull.name ≠ "" → raceFull.name = raceFull.name) ∧
    (raceFull.date ≠ "" → raceFull.date = raceFull.date) ∧
    (raceFull.location ≠ "" → raceFull.location = raceFull.location) :=
  scrape_C7_fields_fill_once { races := [], current_race := some raceFull }
    (Event.text "hello") raceFull raceFull rfl (by decide)

/-! ### Claim C8 -/

/-- C8 counterexample: for the text "Chiang Mai province trail province" the
code stores "Chiang Mai trail" — `text.replace(" province", "")` removes every
occurrence of the substring — while the claim's trailing-suffix strip
(`stripTrailingProvince`, modelled from the spec's words) would keep the inner
occurrence and store "Chiang Mai province trail". -/
theorem scrape_C8_counterexample :
    (runParser [evOpen,
        Event.text "Chiang Mai province trail province"]).current_race.map Race.location
        = some "Chiang Mai trail" ∧
    stripTrailingProvince ("Chiang Mai province trail province".data)
        = "Chiang Mai province trail".data ∧
    ("Chiang Mai trail" : String) ≠ "Chiang Mai province trail" := by
  refine ⟨rfl, rfl, by decide⟩

/-- C8 (amended): a text event processed while a candidate is open with empty
location sets `location` if and only if the trimmed text contains the
substring "Chiang Mai" and contains "province" case-insensitively; the stored
value is the text with every occurrence of the substring " province" removed
(left to right), then whitespace-stripped — not only a trailing suffix. -/
theorem scrape_C8_location_value (st : ParserState) (d : String) (r : Race)
    (hc : st.current_race = some r) (hl : r.location = "") :
    (handle_data st d).current_race.map Race.location =
      some (if containsSub (pyStrip d.data) ("Chiang Mai".data) = true ∧
               containsSub ((pyStrip d.data).map Char.toLower) ("province".data) = true
            then String.mk (pyStrip (replaceAll (" province".data) [] (pyStrip d.data)))
            else "") := by
  have h0 : (handle_data st d).current_race = dataRace st.current_race d := rfl
  rw [h0, hc]
  have h1 : dataRace (some r) d
      = (if (pyStrip d.data).isEmpty = true then some r
         else some (applyLocation (pyStrip d.data) (applyDate (pyStrip d.data)
           (applyName (pyStrip d.data) r)))) := rfl
  rw [h1]
  split
  · rename_i hemp
    have hnil : pyStrip d.data = [] := by
      cases hcase : pyStrip d.data with
      | nil => rfl
      | cons c cs => rw [hcase] at hemp; simp [List.isEmpty] at hemp
    rw [hnil]
    rw [if_neg]
    · rw [Option.map_some', hl]
    · intro hcon
      exact absurd hcon.1 (by decide)
  · rw [Option.map_some']
    have hXloc : (applyDate (pyStrip d.data) (applyName (pyStrip d.data) r)).location = "" := by
      rw [applyDate_location, applyName_location]; exact hl
    unfold applyLocation
    by_cases hC : containsSub (pyStrip d.data) ("Chiang Mai".data) = true ∧
        containsSub ((pyStrip d.data).map Char.toLower) ("province".data) = true
    · rw [if_pos ⟨hXloc, hC.1, hC.2⟩, if_pos hC]
    · rw [if_neg (fun hcon => hC ⟨hcon.2.1, hcon.2.2⟩), if_neg hC, hXloc]

/-- C8 witness: the amended theorem at a concrete open candidate and text. -/
theorem scrape_C8_witness :
    (handle_data { races := [], current_race := some raceEmptyName }
        "Chiang Mai province").current_race.map Race.location =
      some (if containsSub (pyStrip ("Chiang Mai province".data)) ("Chiang Mai".data) = true ∧
               containsSub ((pyStrip ("Chiang Mai province".data)).map Char.toLower)
                 ("province".data) = true
            then String.mk (pyStrip (replaceAll (" province".data) []
                   (pyStrip ("Chiang Mai province".data))))
            else "") :=
  scrape_C8_location_value _ "Chiang Mai province" raceEmptyName rfl rfl

/-! ### Claim C10 -/

theorem finalize_pairwise (races : List Race) (r : Race)
    (h : races.Pairwise (fun a b => a.url ≠ b.url)) :
    (finalizeRace races r).Pairwise (fun a b => a.url ≠ b.url) := by
  unfold finalizeRace
  split
  · rename_i hnotin
    refine List.pairwise_append.2 ⟨h, by simp, ?_⟩
    intro a ha b hb
    rw [List.mem_singleton] at hb
    subst hb
    have hurl : (if r.location = "" then { r with location := "Chiang Mai" } else r).url
        = r.url := by split <;> rfl
    rw [hurl]
    intro heq
    exact hnotin (heq ▸ List.mem_map_of_mem Race.url ha)
  · exact h

theorem inv_url_step (st : ParserState) (e : Event)
    (h : st.races.Pairwise (fun a b => a.url ≠ b.url)) :
    (step st e).races.Pairwise (fun a b => a.url ≠ b.url) := by
  cases e with
  | startTag t a => exact h
  | text d => exact h
  | endTag t =>
    show ((handle_endtag st t).races).Pairwise _
    unfold handle_endtag
    cases st.current_race with
    | none => exact h
    | some r0 =>
      show (if r0.name ≠ "" ∧ r0.date ≠ "" then
              ({ races := finalizeRace st.races r0, current_race := none } : ParserState)
            else st).races.Pairwise _
      split
      · exact finalize_pairwise st.races r0 h
      · exact h

theorem dedup_eq_self :
    ∀ (l : List Race) (seen : List String),
      l.Pairwise (fun a b => a.url ≠ b.url) →
      (∀ r ∈ l, r.url ∉ seen) →
      dedupByUrl seen l = l := by
  intro l
  induction l with
  | nil => intro seen _ _; rfl
  | cons a l ih =>
    intro seen hp hs
    have hmem : a.url ∉ seen := hs a (List.mem_cons_self a l)
    simp only [dedupByUrl, if_neg hmem]
    congr 1
    refine ih (a.url :: seen) (List.pairwise_cons.1 hp).2 ?_
    intro r hr hin
    rcases List.mem_cons.1 hin with heq | hin2
    · exact (List.pairwise_cons.1 hp).1 r hr heq.symm
    · exact hs r (List.mem_cons_of_mem a hr) hin2

/-- C10: the list accumulated by the parser already has pairwise-distinct url
values (the per-close-tag duplicate check), so on every input the defensive
deduplication pass removes nothing: `scrape`'s output equals the sorted parser
list alone. -/
theorem scrape_C10_dedup_noop (evs : List Event) :
    (runParser evs).races.Pairwise (fun a b => a.url ≠ b.url) ∧
    scrapeList evs = sortRaces (runParser evs).races := by
  have hp : (runParser evs).races.Pairwise (fun a b => a.url ≠ b.url) :=
    foldl_inv (P := fun st => st.races.Pairwise fun a b => a.url ≠ b.url)
      inv_url_step evs initState List.Pairwise.nil
  refine ⟨hp, ?_⟩
  have hperm : (runParser evs).races.Perm (sortRaces (runParser evs).races) :=
    (List.perm_insertionSort raceLe _).symm
  have hps : (sortRaces (runParser evs).races).Pairwise (fun a b => a.url ≠ b.url) :=
    hperm.pairwise hp (fun hxy => Ne.symm hxy)
  exact dedup_eq_self _ [] hps (by intro r _ hin; exact absurd hin (List.not_mem_nil _))
